import Mathlib

set_option autoImplicit false

/-!
# Freshness & synchronization engine of relax-o-vision

A shallow embedding of the cache / freshness / synchronization core of the
repository: the `CacheManager` (cache metadata in PostgreSQL plus a volatile
tier), the in-memory LRU `MemoryCache`, the `RedisCache` boundary, the rate
limiting in `Client.doRequest`, and the `Scheduler.runSync` tick.

Time is modelled as Go does it internally: instants (`time.Time`) are Unix
nanoseconds and durations (`time.Duration`) are nanosecond counts, both as
`Int`.  Go's `t.After(u)` is `t > u`.
-/

namespace RelaxOVision

def second : Int := 1000000000

def minute : Int := 60 * second

def hour : Int := 60 * minute

/-- `GetCacheTTL` (footballdata cache manager): reads `CACHE_TTL_DAYS` from the
environment.  The environment is modelled as the parsed integer when the
variable is set and `strconv.Atoi` succeeds, and `none` when the variable is
unset or does not parse.  A positive parsed value gives `days * 24h`;
everything else falls through to the 30-day default. -/
def GetCacheTTL (envDays : Option Int) : Int :=
  match envDays with
  | some d => if 0 < d then d * 24 * hour else 30 * 24 * hour
  | none => 30 * 24 * hour

/-- `CacheTTL` from `cached_client.go`: the per-data-type TTL map
`{competitions: 24h, teams: 12h, matches: 5m, standings: 15m, head2head: 1h}`.
It supplies the volatile-tier TTLs of `CachedClient`'s `cache.Set` calls; a
missing key yields Go's zero duration.  `SetMetadata` does not read it. -/
def cachedClientTTL (dataType : String) : Int :=
  if dataType = "competitions" then 24 * hour
  else if dataType = "teams" then 12 * hour
  else if dataType = "matches" then 5 * minute
  else if dataType = "standings" then 15 * minute
  else if dataType = "head2head" then 1 * hour
  else 0

/-- A row of the `cache_metadata` table (the composite key is stored beside the
row in `MetaDB`; the surrogate `id` column plays no role in the logic). -/
structure CacheMetadata where
  cachedAt : Int
  expiresAt : Int
  dataHash : String
deriving DecidableEq, Repr

/-- The `cache_metadata` table: rows keyed by `(entity_type, entity_key)`.
The table has a uniqueness constraint on the composite key; the model keeps
the rows as an association list. -/
abbrev MetaDB := List ((String × String) × CacheMetadata)

def keyMatches (et ek : String) (r : (String × String) × CacheMetadata) : Bool :=
  r.1.1 = et && r.1.2 = ek

/-- The successful-query semantics of `GetMetadata`:
`SELECT ... FROM cache_metadata WHERE entity_type = $1 AND entity_key = $2`,
with `sql.ErrNoRows` mapped to `none`. -/
def queryMetadata (db : MetaDB) (et ek : String) : Option CacheMetadata :=
  (db.find? (keyMatches et ek)).map (fun r => r.2)

/-- `SetMetadata`: `INSERT ... ON CONFLICT (entity_type, entity_key) DO UPDATE`.
`now` is the sampled `time.Now()`; `ttl` is the global `CacheTTL`
(`expiresAt := now.Add(CacheTTL)`). -/
def SetMetadata (db : MetaDB) (et ek dataHash : String) (now ttl : Int) : MetaDB :=
  let row : CacheMetadata := { cachedAt := now, expiresAt := now + ttl, dataHash := dataHash }
  if (db.find? (keyMatches et ek)).isSome then
    db.map (fun r => if keyMatches et ek r then (r.1, row) else r)
  else
    db ++ [((et, ek), row)]

/-- `NeedsRefresh` over the outcome of `GetMetadata` (which can fail with a
database error) and the sampled `time.Now()`:
`if err != nil || metadata == nil { return true }` then
`return time.Now().After(metadata.ExpiresAt)`. -/
def NeedsRefresh (md : Except String (Option CacheMetadata)) (now : Int) : Bool :=
  match md with
  | .error _ => true
  | .ok none => true
  | .ok (some m) => now > m.expiresAt

/-- `NeedsRefresh` in the case where the metadata query itself succeeds. -/
def NeedsRefreshOk (db : MetaDB) (et ek : String) (now : Int) : Bool :=
  NeedsRefresh (.ok (queryMetadata db et ek)) now

/-- `InvalidateEntity`, success path: `DELETE FROM cache_metadata WHERE
entity_type = $1 AND entity_key = $2`, then delete the volatile key
`football:<entityType>:<entityKey>` (the volatile tier is added later,
where it is modelled; this is the durable half). -/
def invalidateMetadata (db : MetaDB) (et ek : String) : MetaDB :=
  db.filter (fun r => !(keyMatches et ek r))

/-! ## The in-memory LRU cache (cache/memory.go)

The `items` map and the `lru` linked list are kept in sync by the source, so
both are modelled as one association list in recency order: the head is the
front of the LRU list (most recently used) and the last element is the back
(least recently used).  Entries are `(key, value, expiresAt)`. -/

structure MemoryCache (α : Type) where
  maxSize : Nat
  items : List (String × α × Int)
deriving DecidableEq, Repr

def keyIs {α : Type} (key : String) (p : String × α × Int) : Bool :=
  p.1 = key

/-- `NewMemoryCache`: non-positive `maxSize` falls back to 1000; the store
starts empty. -/
def NewMemoryCache (α : Type) (maxSize : Int) : MemoryCache α :=
  { maxSize := if maxSize ≤ 0 then 1000 else maxSize.toNat, items := [] }

namespace MemoryCache

variable {α : Type}

/-- `Get`: absent key gives `(nil, nil)`; an expired entry is eagerly evicted
and also gives `(nil, nil)`; a live hit is moved to the front of the LRU
list.  The error result is the literal `nil` at every return in the source. -/
def Get (c : MemoryCache α) (key : String) (now : Int) :
    MemoryCache α × Except String (Option α) :=
  match c.items.find? (keyIs key) with
  | none => (c, .ok none)
  | some p =>
    if now > p.2.2 then
      ({ c with items := c.items.filter (fun q => !(keyIs key q)) }, .ok none)
    else
      ({ c with items := p :: c.items.filter (fun q => !(keyIs key q)) }, .ok (some p.2.1))

/-- `Set`: an existing key is updated in place (new value and TTL) and moved
to the front; a new key first evicts the least-recently-used entry when the
store is at capacity, then is pushed to the front.  The source always
returns a `nil` error. -/
def Set (c : MemoryCache α) (key : String) (value : α) (ttl now : Int) : MemoryCache α :=
  match c.items.find? (keyIs key) with
  | some _ =>
    { c with items := (key, value, now + ttl) :: c.items.filter (fun q => !(keyIs key q)) }
  | none =>
    let base := if c.items.length ≥ c.maxSize then c.items.dropLast else c.items
    { c with items := (key, value, now + ttl) :: base }

/-- `Delete`: removes the entry when present (no error either way). -/
def Delete (c : MemoryCache α) (key : String) : MemoryCache α :=
  { c with items := c.items.filter (fun q => !(keyIs key q)) }

/-- `Exists`: present and not expired. -/
def Exists (c : MemoryCache α) (key : String) (now : Int) : Bool :=
  match c.items.find? (keyIs key) with
  | none => false
  | some p => !(now > p.2.2 : Bool)

/-- `Clear`: drops every entry. -/
def Clear (c : MemoryCache α) : MemoryCache α :=
  { c with items := [] }

/-- One round of the `cleanupExpired` background sweep at instant `now`. -/
def cleanupExpired (c : MemoryCache α) (now : Int) : MemoryCache α :=
  { c with items := c.items.filter (fun p => !(now > p.2.2 : Bool)) }

end MemoryCache

/-- A client-visible operation on the in-memory cache (plus one sweep round
of the cleanup goroutine). -/
inductive CacheOp (α : Type) where
  | get (key : String) (now : Int)
  | set (key : String) (value : α) (ttl now : Int)
  | del (key : String)
  | clear
  | sweep (now : Int)

def applyOp {α : Type} (c : MemoryCache α) : CacheOp α → MemoryCache α
  | .get key now => (c.Get key now).1
  | .set key value ttl now => c.Set key value ttl now
  | .del key => c.Delete key
  | .clear => c.Clear
  | .sweep now => c.cleanupExpired now

def runOps {α : Type} (c : MemoryCache α) (ops : List (CacheOp α)) : MemoryCache α :=
  ops.foldl applyOp c

/-- A sequence of `Set` calls, each entry being
`(key, value, ttl, now)`. -/
def insertAll {α : Type} (c : MemoryCache α) (entries : List (String × α × Int × Int)) :
    MemoryCache α :=
  runOps c (entries.map (fun e => CacheOp.set e.1 e.2.1 e.2.2.1 e.2.2.2))

/-! ## The networked backend (RedisCache) at its boundary -/

/-- The remote service's reply to a GET: a value, the nil reply (the key does
not exist), or a transport error. -/
inductive RedisReply (α : Type) where
  | found (v : α)
  | nilReply
  | err (e : String)

/-- `RedisCache.Get`: `redis.Nil` is mapped to `(nil, nil)` — a miss is not a
failure; any other error propagates. -/
def RedisGet {α : Type} (reply : RedisReply α) : Except String (Option α) :=
  match reply with
  | .found v => .ok (some v)
  | .nilReply => .ok none
  | .err e => .error e

/-! ## CacheManager volatile-tier operations (part_008) -/

/-- `CacheManager.Set`: writes to Redis only when a backend is configured; a
backend failure is logged with `slog.Warn` and swallowed.  The backend is
abstract (`σ`), with its `Set` given as `redisSet`.  Result components:
(new backend state, error returned to the caller, logged warning). -/
def cacheManagerSet {σ : Type} (redis : Option σ)
    (redisSet : σ → String → List Nat → Int → Except String σ)
    (key : String) (data : List Nat) (ttl : Int) :
    Option σ × Option String × Option String :=
  match redis with
  | none => (none, none, none)
  | some s =>
    match redisSet s key data ttl with
    | .ok s2 => (some s2, none, none)
    | .error e => (some s, none, some ("Failed to set Redis cache " ++ key ++ ": " ++ e))

/-- `InvalidateEntity`, success path of the SQL DELETE: removes the metadata
rows for the composite key, then deletes the volatile key
`football:<entityType>:<entityKey>` when a backend is configured. -/
def InvalidateEntity {α : Type} (db : MetaDB) (redis : Option (MemoryCache α))
    (et ek : String) : MetaDB × Option (MemoryCache α) :=
  (invalidateMetadata db et ek,
   redis.map (fun c => c.Delete ("football:" ++ et ++ ":" ++ ek)))

/-! ## Rate limiting in Client.doRequest (footballdata/client.go)

Idealized timing model: `time.Sleep` suspends for exactly the computed
duration and the statements around it take no time, so lower bounds on
wall-clock separation proved here hold of every real execution, where
sleeps and calls can only take longer. -/

def requestsPerMinute : Int := 10

def rateLimitDuration : Int := minute

/-- `rateLimitDuration / requestsPerMinute`: Go integer division of the
nanosecond counts, 6 seconds exactly. -/
def requiredGap : Int := rateLimitDuration / requestsPerMinute

/-- The rate-limiting prelude of `doRequest`: `last` is `c.lastRequest`
(`none` for the zero value), `now` the instant the caller takes the mutex.
If less than the required gap has elapsed the caller sleeps for the
remainder.  The result is the instant the request proceeds, which the code
stores back into `c.lastRequest`. -/
def permitTime (last : Option Int) (now : Int) : Int :=
  match last with
  | none => now
  | some l => if now - l < requiredGap then l + requiredGap else now

/-- Sequential `doRequest` calls: fold over the arrival instants, threading
`lastRequest` and collecting each call's permitted instant. -/
def callTimes (last : Option Int) : List Int → List Int
  | [] => []
  | a :: rest =>
    let t := permitTime last a
    t :: callTimes (some t) rest

/-! ## The scheduler tick (part_009)

`Scheduler.runSync` with the entity set resolved to the configured
competition codes.  The collaborators — the upstream client, the repository
and `Service.SyncCompetitionMatches` — are abstracted as a `SyncEnv` of
response maps; `ComputeDataHash` over fetched payloads is abstracted as the
hash functions of the environment.  `hasCM` mirrors the source's
`s.cacheManager != nil` checks; `ttl` is the global `CacheTTL`.  Time
advances by the explicit 2-second `time.Sleep` after each synced
sub-resource; all other operations are instantaneous in the model. -/

structure SyncEnv (γ σ : Type) where
  getCompetition : String → Except String γ
  saveCompetition : String → γ → Except String Unit
  syncCompetitionMatches : String → Except String Unit
  getStandings : String → Except String σ
  hashComp : γ → String
  hashStandings : σ → String

structure TickState where
  db : MetaDB
  log : List String
  now : Int
deriving Repr

def appendLog (st : TickState) (msg : String) : TickState :=
  { st with log := st.log ++ [msg] }

def advance (st : TickState) : TickState :=
  { st with now := st.now + 2 * second }

/-- `Scheduler.needsRefresh`: always refresh without a cache manager,
otherwise delegate to `CacheManager.NeedsRefresh` (successful-query path). -/
def schedNeedsRefresh (hasCM : Bool) (db : MetaDB) (et ek : String) (now : Int) : Bool :=
  if hasCM then NeedsRefreshOk db et ek now else true

/-- `Scheduler.syncCompetition`: fetch, save, and only then update the
`competition` metadata with the payload's hash. -/
def syncCompetition {γ σ : Type} (env : SyncEnv γ σ) (hasCM : Bool) (ttl : Int)
    (st : TickState) (code : String) : TickState × Option String :=
  match env.getCompetition code with
  | .error e => (st, some ("failed to fetch competition: " ++ e))
  | .ok comp =>
    match env.saveCompetition code comp with
    | .error e => (st, some ("failed to save competition: " ++ e))
    | .ok _ =>
      if hasCM then
        ({ st with db := SetMetadata st.db "competition" code (env.hashComp comp) st.now ttl },
         none)
      else (st, none)

/-- `Scheduler.syncStandings`: fetch, then update the `standings` metadata
with the payload's hash (standings are not persisted durably). -/
def syncStandings {γ σ : Type} (env : SyncEnv γ σ) (hasCM : Bool) (ttl : Int)
    (st : TickState) (code : String) : TickState × Option String :=
  match env.getStandings code with
  | .error e => (st, some ("failed to fetch standings: " ++ e))
  | .ok standings =>
    if hasCM then
      ({ st with db := SetMetadata st.db "standings" code (env.hashStandings standings) st.now ttl },
       none)
    else (st, none)

/-- The competition block of the `runSync` loop body: a failure is logged and
the loop continues. -/
def compStep {γ σ : Type} (env : SyncEnv γ σ) (hasCM : Bool) (ttl : Int)
    (st : TickState) (code : String) : TickState :=
  if schedNeedsRefresh hasCM st.db "competition" code st.now then
    match syncCompetition env hasCM ttl st code with
    | (st2, some e) =>
      advance (appendLog st2 ("Failed to sync competition " ++ code ++ ": " ++ e))
    | (st2, none) => advance st2
  else st

/-- The matches block of the `runSync` loop body: after attempting
`SyncCompetitionMatches` — whether it failed or not — the `matches`
metadata is updated with an empty hash. -/
def matchesStep {γ σ : Type} (env : SyncEnv γ σ) (hasCM : Bool) (ttl : Int)
    (st : TickState) (code : String) : TickState :=
  if schedNeedsRefresh hasCM st.db "matches" code st.now then
    let st2 :=
      match env.syncCompetitionMatches code with
      | .error e => appendLog st ("Failed to sync matches " ++ code ++ ": " ++ e)
      | .ok _ => st
    let st3 :=
      if hasCM then { st2 with db := SetMetadata st2.db "matches" code "" st2.now ttl } else st2
    advance st3
  else st

/-- The standings block of the `runSync` loop body: after attempting
`syncStandings` — whether it failed or not — the `standings` metadata is
updated with an empty hash. -/
def standingsStep {γ σ : Type} (env : SyncEnv γ σ) (hasCM : Bool) (ttl : Int)
    (st : TickState) (code : String) : TickState :=
  if schedNeedsRefresh hasCM st.db "standings" code st.now then
    let st2 :=
      match syncStandings env hasCM ttl st code with
      | (s, some e) => appendLog s ("Failed to sync standings " ++ code ++ ": " ++ e)
      | (s, none) => s
    let st3 :=
      if hasCM then { st2 with db := SetMetadata st2.db "standings" code "" st2.now ttl } else st2
    advance st3
  else st

/-- The whole `runSync` loop body for one competition. -/
def processCompetition {γ σ : Type} (env : SyncEnv γ σ) (hasCM : Bool) (ttl : Int)
    (st : TickState) (code : String) : TickState :=
  standingsStep env hasCM ttl (matchesStep env hasCM ttl (compStep env hasCM ttl st code) code) code

/-- One `runSync` tick over the configured competition codes. -/
def runSyncTick {γ σ : Type} (env : SyncEnv γ σ) (hasCM : Bool) (ttl : Int)
    (st : TickState) (codes : List String) : TickState :=
  codes.foldl (processCompetition env hasCM ttl) st

/-- A collaborator environment in which the competition fetch, the matches
sync, and the standings fetch all fail. -/
def failingEnv : SyncEnv Unit Unit :=
  { getCompetition := fun _ => .error "fetch-fail"
    saveCompetition := fun _ _ => .ok ()
    syncCompetitionMatches := fun _ => .error "matches-fail"
    getStandings := fun _ => .error "standings-fail"
    hashComp := fun _ => "h"
    hashStandings := fun _ => "h" }

/-- A collaborator environment in which only competition `B` fails to fetch
and everything else succeeds. -/
def isolationEnv : SyncEnv Unit Unit :=
  { getCompetition := fun code => if code = "B" then .error "boom" else .ok ()
    saveCompetition := fun _ _ => .ok ()
    syncCompetitionMatches := fun _ => .ok ()
    getStandings := fun _ => .ok ()
    hashComp := fun _ => "h"
    hashStandings := fun _ => "h" }

section MetaLemmas

theorem keyMatches_update (a b et ek : String) (row : CacheMetadata)
    (r : (String × String) × CacheMetadata) :
    keyMatches a b (if keyMatches et ek r then (r.1, row) else r) = keyMatches a b r := by
  by_cases h : keyMatches et ek r = true
  · rw [if_pos h]; simp [keyMatches]
  · rw [if_neg h]

theorem queryMetadata_SetMetadata_self (db : MetaDB) (et ek dataHash : String) (now ttl : Int) :
    queryMetadata (SetMetadata db et ek dataHash now ttl) et ek
      = some { cachedAt := now, expiresAt := now + ttl, dataHash := dataHash } := by
  set row : CacheMetadata := { cachedAt := now, expiresAt := now + ttl, dataHash := dataHash }
    with hrow
  unfold SetMetadata queryMetadata
  by_cases h : (db.find? (keyMatches et ek)).isSome
  · simp only [← hrow, h, if_true]
    rw [List.find?_map]
    have hcomp : (keyMatches et ek ∘ fun r => if keyMatches et ek r then (r.1, row) else r)
        = keyMatches et ek := funext fun r => keyMatches_update et ek et ek row r
    rw [hcomp]
    obtain ⟨r, hr⟩ := Option.isSome_iff_exists.mp h
    have hpr : keyMatches et ek r = true := List.find?_some hr
    simp [hr, hpr]
  · have hnone : db.find? (keyMatches et ek) = none := by
      cases hfind : db.find? (keyMatches et ek) <;> simp_all
    simp only [← hrow]
    rw [if_neg h, List.find?_append, hnone]
    simp [List.find?, keyMatches]

theorem queryMetadata_SetMetadata_other (db : MetaDB) (et ek et2 ek2 dataHash : String)
    (now ttl : Int) (hne : ¬(et2 = et ∧ ek2 = ek)) :
    queryMetadata (SetMetadata db et ek dataHash now ttl) et2 ek2 = queryMetadata db et2 ek2 := by
  set row : CacheMetadata := { cachedAt := now, expiresAt := now + ttl, dataHash := dataHash }
    with hrow
  unfold SetMetadata queryMetadata
  by_cases h : (db.find? (keyMatches et ek)).isSome
  · simp only [← hrow, h, if_true]
    rw [List.find?_map]
    have hcomp : (keyMatches et2 ek2 ∘ fun r => if keyMatches et ek r then (r.1, row) else r)
        = keyMatches et2 ek2 := funext fun r => keyMatches_update et2 ek2 et ek row r
    rw [hcomp]
    cases hq : db.find? (keyMatches et2 ek2) with
    | none => rfl
    | some r =>
      have hpr : keyMatches et2 ek2 r = true := List.find?_some hq
      have hk1 : r.1.1 = et2 := by simp [keyMatches] at hpr; exact hpr.1
      have hk2 : r.1.2 = ek2 := by simp [keyMatches] at hpr; exact hpr.2
      have hnot : keyMatches et ek r = false := by
        simp only [keyMatches, hk1, hk2]
        by_cases h1 : et2 = et
        · by_cases h2 : ek2 = ek
          · exact absurd ⟨h1, h2⟩ hne
          · simp [h2]
        · simp [h1]
      simp only [Option.map_some', hnot, Bool.false_eq_true, if_false]
  · have hnone : db.find? (keyMatches et ek) = none := by
      cases hfind : db.find? (keyMatches et ek) <;> simp_all
    simp only [← hrow]
    rw [if_neg h, List.find?_append]
    have hk : keyMatches et2 ek2 ((et, ek), row) = false := by
      simp only [keyMatches]
      by_cases h1 : et = et2
      · by_cases h2 : ek = ek2
        · exact absurd ⟨h1.symm, h2.symm⟩ hne
        · simp [h2]
      · simp [h1]
    have hlast : ([((et, ek), row)] : MetaDB).find? (keyMatches et2 ek2) = none := by
      simp [List.find?, hk]
    rw [hlast]
    cases db.find? (keyMatches et2 ek2) <;> rfl

theorem queryMetadata_invalidate (db : MetaDB) (et ek : String) :
    queryMetadata (invalidateMetadata db et ek) et ek = none := by
  unfold queryMetadata invalidateMetadata
  have : (db.filter (fun r => !(keyMatches et ek r))).find? (keyMatches et ek) = none := by
    induction db with
    | nil => rfl
    | cons r t ih =>
      by_cases h : keyMatches et ek r = true
      · simp [List.filter, h, ih]
      · have h' : keyMatches et ek r = false := by simp_all
        simp [List.filter, h', List.find?, ih]
  rw [this]
  rfl

theorem find?_filter_not {β : Type} (l : List β) (p : β → Bool) :
    (l.filter (fun x => !(p x))).find? p = none := by
  rw [List.find?_eq_none]
  intro x hx
  have hmem := List.mem_filter.mp hx
  intro hpx
  rw [hpx] at hmem
  simp at hmem

end MetaLemmas

section RateLimiterLemmas

theorem permitTime_ge (l a : Int) : l + requiredGap ≤ permitTime (some l) a := by
  show l + requiredGap ≤ if a - l < requiredGap then l + requiredGap else a
  by_cases h : a - l < requiredGap
  · rw [if_pos h]
  · rw [if_neg h]
    omega

theorem callTimes_head_ge (l : Int) (arrivals : List Int) :
    ∀ x, (callTimes (some l) arrivals).head? = some x → l + requiredGap ≤ x := by
  cases arrivals with
  | nil => intro x hx; simp [callTimes] at hx
  | cons a rest =>
    intro x hx
    rw [callTimes] at hx
    simp only [List.head?_cons, Option.some.injEq] at hx
    rw [← hx]
    exact permitTime_ge l a

theorem callTimes_chain_some (l : Int) (arrivals : List Int) :
    List.Chain' (fun a b => a + requiredGap ≤ b) (callTimes (some l) arrivals) := by
  induction arrivals generalizing l with
  | nil => simp [callTimes]
  | cons a rest ih =>
    rw [callTimes]
    apply List.Chain'.cons'
    · exact ih (permitTime (some l) a)
    · intro y hy
      exact callTimes_head_ge (permitTime (some l) a) rest y (Option.mem_def.mp hy)

theorem callTimes_chain (arrivals : List Int) :
    List.Chain' (fun a b => a + requiredGap ≤ b) (callTimes none arrivals) := by
  cases arrivals with
  | nil => simp [callTimes]
  | cons a rest =>
    rw [callTimes]
    apply List.Chain'.cons'
    · exact callTimes_chain_some (permitTime none a) rest
    · intro y hy
      exact callTimes_head_ge (permitTime none a) rest y (Option.mem_def.mp hy)

theorem callTimes_length (last : Option Int) (arrivals : List Int) :
    (callTimes last arrivals).length = arrivals.length := by
  induction arrivals generalizing last with
  | nil => rfl
  | cons a rest ih => simp [callTimes, ih]

theorem chainGap_get (g : Int) (l : List Int)
    (hchain : List.Chain' (fun a b => a + g ≤ b) l) (i : Nat) :
    ∀ (k : Nat) (h : i + k < l.length) (hi : i < l.length),
      l.get ⟨i, hi⟩ + (k : Int) * g ≤ l.get ⟨i + k, h⟩ := by
  intro k
  induction k with
  | zero => intro h hi; simp
  | succ k ih =>
    intro h hi
    have hk : i + k < l.length := by omega
    have hik1 : i + k + 1 < l.length := by omega
    have h1 := ih hk hi
    have h2 : l.get ⟨i + k, hk⟩ + g ≤ l.get ⟨i + k + 1, hik1⟩ :=
      (List.chain'_iff_get.mp hchain) (i + k) (by omega)
    have hidx : l.get ⟨i + (k + 1), h⟩ = l.get ⟨i + k + 1, hik1⟩ := rfl
    rw [hidx]
    have hcast : ((k + 1 : Nat) : Int) * g = (k : Int) * g + g := by push_cast; ring
    rw [hcast]
    linarith

theorem chainGap_window (g : Int) (N : Nat) (lo : Int) (l : List Int)
    (hchain : List.Chain' (fun a b => a + g ≤ b) l)
    (hmem : ∀ x ∈ l, lo ≤ x ∧ x < lo + (N : Int) * g) :
    l.length ≤ N := by
  by_contra hcon
  push_neg at hcon
  have h0 : 0 + N < l.length := by omega
  have h00 : 0 < l.length := by omega
  have hstep := chainGap_get g l hchain 0 N h0 h00
  have hm0 := hmem (l.get ⟨0, h00⟩) (List.get_mem l 0 h00)
  have hmN := hmem (l.get ⟨0 + N, h0⟩) (List.get_mem l (0 + N) h0)
  linarith [hm0.1, hmN.2, hstep]

end RateLimiterLemmas

section LruLemmas

variable {α : Type}

theorem length_filter_not_lt {β : Type} (l : List β) (p : β → Bool) (x : β)
    (hx : x ∈ l) (hpx : p x = true) :
    (l.filter (fun q => !(p q))).length + 1 ≤ l.length := by
  induction l with
  | nil => cases hx
  | cons a t ih =>
    by_cases ha : p a = true
    · have hfc : (a :: t).filter (fun q => !(p q)) = t.filter (fun q => !(p q)) := by
        simp [List.filter_cons, ha]
      rw [hfc]
      have := List.length_filter_le (fun q => !(p q)) t
      simp only [List.length_cons]
      omega
    · have hxt : x ∈ t := by
        rcases List.mem_cons.mp hx with h | h
        · rw [h] at hpx; exact absurd hpx ha
        · exact h
      have hrec := ih hxt
      have hfc : (a :: t).filter (fun q => !(p q)) = a :: t.filter (fun q => !(p q)) := by
        simp [List.filter_cons, ha]
      rw [hfc]
      simp only [List.length_cons]
      omega

theorem applyOp_maxSize (c : MemoryCache α) (op : CacheOp α) :
    (applyOp c op).maxSize = c.maxSize := by
  cases op with
  | get key now =>
    show ((c.Get key now).1).maxSize = c.maxSize
    rcases hfind : c.items.find? (keyIs key) with _ | p
    · simp [MemoryCache.Get, hfind]
    · by_cases hexp : now > p.2.2
      · simp [MemoryCache.Get, hfind, hexp]
      · simp [MemoryCache.Get, hfind, hexp]
  | set key v ttl now =>
    show (c.Set key v ttl now).maxSize = c.maxSize
    rcases hfind : c.items.find? (keyIs key) with _ | p
    · simp [MemoryCache.Set, hfind]
    · simp [MemoryCache.Set, hfind]
  | del key => rfl
  | clear => rfl
  | sweep now => rfl

theorem applyOp_length_le (c : MemoryCache α) (op : CacheOp α)
    (h1 : 1 ≤ c.maxSize) (hlen : c.items.length ≤ c.maxSize) :
    (applyOp c op).items.length ≤ c.maxSize := by
  cases op with
  | get key now =>
    show ((c.Get key now).1).items.length ≤ c.maxSize
    rcases hfind : c.items.find? (keyIs key) with _ | p
    · simpa [MemoryCache.Get, hfind] using hlen
    · have hmem := List.mem_of_find?_eq_some hfind
      have hkey : keyIs key p = true := List.find?_some hfind
      have hflt := length_filter_not_lt c.items (keyIs key) p hmem hkey
      by_cases hexp : now > p.2.2
      · simp only [MemoryCache.Get, hfind, hexp, if_true]
        exact le_trans (List.length_filter_le _ _) hlen
      · simp only [MemoryCache.Get, hfind, hexp, if_false, List.length_cons]
        omega
  | set key v ttl now =>
    show (c.Set key v ttl now).items.length ≤ c.maxSize
    rcases hfind : c.items.find? (keyIs key) with _ | p
    · by_cases hcap : c.items.length ≥ c.maxSize
      · simp only [MemoryCache.Set, hfind, hcap, if_true, List.length_cons,
          List.length_dropLast]
        omega
      · simp only [MemoryCache.Set, hfind, hcap, if_false, List.length_cons]
        omega
    · have hmem := List.mem_of_find?_eq_some hfind
      have hkey : keyIs key p = true := List.find?_some hfind
      have hflt := length_filter_not_lt c.items (keyIs key) p hmem hkey
      simp only [MemoryCache.Set, hfind, List.length_cons]
      omega
  | del key =>
    show (c.items.filter (fun q => !(keyIs key q))).length ≤ c.maxSize
    exact le_trans (List.length_filter_le _ _) hlen
  | clear =>
    show ([] : List (String × α × Int)).length ≤ c.maxSize
    simp
  | sweep now =>
    show (c.items.filter (fun p => !(now > p.2.2 : Bool))).length ≤ c.maxSize
    exact le_trans (List.length_filter_le _ _) hlen

theorem runOps_maxSize (c : MemoryCache α) (ops : List (CacheOp α)) :
    (runOps c ops).maxSize = c.maxSize := by
  induction ops generalizing c with
  | nil => rfl
  | cons op ops ih =>
    show (runOps (applyOp c op) ops).maxSize = c.maxSize
    rw [ih, applyOp_maxSize]

theorem runOps_length_le (c : MemoryCache α) (ops : List (CacheOp α))
    (h1 : 1 ≤ c.maxSize) (hlen : c.items.length ≤ c.maxSize) :
    (runOps c ops).items.length ≤ c.maxSize := by
  induction ops generalizing c with
  | nil => exact hlen
  | cons op ops ih =>
    show (runOps (applyOp c op) ops).items.length ≤ c.maxSize
    have h1a : 1 ≤ (applyOp c op).maxSize := by rw [applyOp_maxSize]; exact h1
    have hlena : (applyOp c op).items.length ≤ (applyOp c op).maxSize := by
      rw [applyOp_maxSize]
      exact applyOp_length_le c op h1 hlen
    have hrec := ih (applyOp c op) h1a hlena
    rw [applyOp_maxSize] at hrec
    exact hrec

theorem find?_keyIs_eq_none (c : MemoryCache α) (key : String)
    (h : ¬ key ∈ c.items.map (fun p => p.1)) :
    c.items.find? (keyIs key) = none := by
  rw [List.find?_eq_none]
  intro x hx hpx
  apply h
  rw [List.mem_map]
  exact ⟨x, hx, by simpa [keyIs] using hpx⟩

theorem Set_fresh_keys (c : MemoryCache α) (key : String) (v : α) (ttl now : Int)
    (hfresh : c.items.find? (keyIs key) = none) :
    (c.Set key v ttl now).items.map (fun p => p.1)
      = key :: (if c.items.length ≥ c.maxSize
          then (c.items.map (fun p => p.1)).dropLast
          else c.items.map (fun p => p.1)) := by
  unfold MemoryCache.Set
  rw [hfresh]
  by_cases hcap : c.items.length ≥ c.maxSize
  · rw [if_pos hcap, if_pos hcap]
    simp [List.map_dropLast]
  · rw [if_neg hcap, if_neg hcap]
    simp

theorem insertAll_maxSize (c : MemoryCache α) (entries : List (String × α × Int × Int)) :
    (insertAll c entries).maxSize = c.maxSize := by
  unfold insertAll
  rw [runOps_maxSize]

theorem insertAll_keys (C : Nat) (hC : 1 ≤ C) (entries : List (String × α × Int × Int)) :
    ∀ c : MemoryCache α, c.maxSize = C → c.items = [] →
      (entries.map (fun e => e.1)).Nodup →
      (insertAll c entries).items.map (fun p => p.1)
        = ((entries.map (fun e => e.1)).reverse).take C := by
  induction entries using List.reverseRecOn with
  | nil =>
    intro c hms hempty _
    simp [insertAll, runOps, hempty]
  | append_singleton es e ih =>
    intro c hms hempty hnodup
    have hmapapp : ((es ++ [e]).map fun x => x.1) = (es.map fun x => x.1) ++ [e.1] := by
      simp
    rw [hmapapp] at hnodup
    rcases List.nodup_append.mp hnodup with ⟨hnodup2, _, hdisj⟩
    have hfreshkey : ¬ e.1 ∈ (es.map fun x => x.1) := by
      intro hmem
      exact hdisj hmem (List.mem_singleton.mpr rfl)
    have hprev := ih c hms hempty hnodup2
    have hstep : insertAll c (es ++ [e])
        = (insertAll c es).Set e.1 e.2.1 e.2.2.1 e.2.2.2 := by
      simp only [insertAll, runOps, List.map_append, List.foldl_append, List.map_cons,
        List.map_nil, List.foldl_cons, List.foldl_nil]
      rfl
    set cprev := insertAll c es with hcprev
    have hms2 : cprev.maxSize = C := by rw [hcprev, insertAll_maxSize, hms]
    have hlenkeys : cprev.items.length = min C es.length := by
      have hlm : (cprev.items.map (fun p => p.1)).length = cprev.items.length :=
        List.length_map _ _
      rw [← hlm, hprev]
      simp [List.length_take]
    have hfresh : cprev.items.find? (keyIs e.1) = none := by
      apply find?_keyIs_eq_none
      rw [hprev]
      intro hmem
      exact hfreshkey (by
        have hmem2 := List.mem_of_mem_take hmem
        rwa [List.mem_reverse] at hmem2)
    rw [hstep, Set_fresh_keys cprev e.1 _ _ _ hfresh, hprev, hmapapp, List.reverse_concat]
    obtain ⟨m, rfl⟩ : ∃ m, C = m + 1 := ⟨C - 1, by omega⟩
    rw [List.take_succ_cons]
    by_cases hlenes : m + 1 ≤ es.length
    · have hcond : cprev.items.length ≥ cprev.maxSize := by
        rw [hms2, hlenkeys]
        omega
      rw [if_pos hcond]
      congr 1
      have hlenrev : ((es.map fun x => x.1).reverse).length = es.length := by
        simp
      rw [List.dropLast_eq_take, List.length_take, hlenrev]
      have hmin : min (m + 1) es.length = m + 1 := by omega
      rw [hmin, List.take_take]
      congr 1
      omega
    · have hcond : ¬ cprev.items.length ≥ cprev.maxSize := by
        rw [hms2, hlenkeys]
        omega
      rw [if_neg hcond]
      congr 1
      have hlenrev : ((es.map fun x => x.1).reverse).length = es.length := by
        simp
      rw [List.take_of_length_le (by omega), List.take_of_length_le (by omega)]

end LruLemmas

section SchedulerLemmas

variable {γ σ : Type}

theorem syncCompetition_db_frame (env : SyncEnv γ σ) (hasCM : Bool) (ttl : Int)
    (st : TickState) (code et2 k2 : String) (hne : ¬(et2 = "competition" ∧ k2 = code)) :
    queryMetadata (syncCompetition env hasCM ttl st code).1.db et2 k2
      = queryMetadata st.db et2 k2 := by
  rcases hg : env.getCompetition code with e | comp
  · simp [syncCompetition, hg]
  · rcases hs : env.saveCompetition code comp with e | u
    · simp [syncCompetition, hg, hs]
    · cases hasCM with
      | false => simp [syncCompetition, hg, hs]
      | true =>
        have h2 := queryMetadata_SetMetadata_other st.db "competition" code et2 k2
          (env.hashComp comp) st.now ttl hne
        simpa [syncCompetition, hg, hs] using h2

theorem syncCompetition_log (env : SyncEnv γ σ) (hasCM : Bool) (ttl : Int)
    (st : TickState) (code : String) :
    (syncCompetition env hasCM ttl st code).1.log = st.log := by
  rcases hg : env.getCompetition code with e | comp
  · simp [syncCompetition, hg]
  · rcases hs : env.saveCompetition code comp with e | u
    · simp [syncCompetition, hg, hs]
    · cases hasCM <;> simp [syncCompetition, hg, hs]

theorem syncStandings_db_frame (env : SyncEnv γ σ) (hasCM : Bool) (ttl : Int)
    (st : TickState) (code et2 k2 : String) (hne : ¬(et2 = "standings" ∧ k2 = code)) :
    queryMetadata (syncStandings env hasCM ttl st code).1.db et2 k2
      = queryMetadata st.db et2 k2 := by
  rcases hg : env.getStandings code with e | standings
  · simp [syncStandings, hg]
  · cases hasCM with
    | false => simp [syncStandings, hg]
    | true =>
      have h2 := queryMetadata_SetMetadata_other st.db "standings" code et2 k2
        (env.hashStandings standings) st.now ttl hne
      simpa [syncStandings, hg] using h2

theorem syncStandings_log (env : SyncEnv γ σ) (hasCM : Bool) (ttl : Int)
    (st : TickState) (code : String) :
    (syncStandings env hasCM ttl st code).1.log = st.log := by
  rcases hg : env.getStandings code with e | standings
  · simp [syncStandings, hg]
  · cases hasCM <;> simp [syncStandings, hg]

theorem compStep_db_frame (env : SyncEnv γ σ) (hasCM : Bool) (ttl : Int)
    (st : TickState) (code et2 k2 : String) (hne : ¬(et2 = "competition" ∧ k2 = code)) :
    queryMetadata (compStep env hasCM ttl st code).db et2 k2
      = queryMetadata st.db et2 k2 := by
  unfold compStep
  split
  · rcases hsc : syncCompetition env hasCM ttl st code with ⟨st2, err⟩
    have hdb : queryMetadata st2.db et2 k2 = queryMetadata st.db et2 k2 := by
      have h2 := syncCompetition_db_frame env hasCM ttl st code et2 k2 hne
      rw [hsc] at h2
      exact h2
    cases err with
    | none => simpa [advance] using hdb
    | some e => simpa [advance, appendLog] using hdb
  · rfl

theorem compStep_log_mono (env : SyncEnv γ σ) (hasCM : Bool) (ttl : Int)
    (st : TickState) (code : String) (x : String) (hx : x ∈ st.log) :
    x ∈ (compStep env hasCM ttl st code).log := by
  unfold compStep
  split
  · rcases hsc : syncCompetition env hasCM ttl st code with ⟨st2, err⟩
    have hlog : st2.log = st.log := by
      have h2 := syncCompetition_log env hasCM ttl st code
      rw [hsc] at h2
      exact h2
    cases err with
    | none => simpa [advance, hlog] using hx
    | some e =>
      simp only [advance, appendLog, hlog, List.mem_append]
      exact Or.inl hx
  · exact hx

theorem matchesStep_db_frame (env : SyncEnv γ σ) (hasCM : Bool) (ttl : Int)
    (st : TickState) (code et2 k2 : String) (hne : ¬(et2 = "matches" ∧ k2 = code)) :
    queryMetadata (matchesStep env hasCM ttl st code).db et2 k2
      = queryMetadata st.db et2 k2 := by
  unfold matchesStep
  split
  · rcases hm : env.syncCompetitionMatches code with e | u
    · cases hasCM with
      | false => simp [advance, appendLog]
      | true =>
        simp only [advance, appendLog, if_true]
        rw [queryMetadata_SetMetadata_other _ _ _ _ _ _ _ _ hne]
    · cases hasCM with
      | false => simp [advance]
      | true =>
        simp only [advance, if_true]
        rw [queryMetadata_SetMetadata_other _ _ _ _ _ _ _ _ hne]
  · rfl

theorem matchesStep_log_mono (env : SyncEnv γ σ) (hasCM : Bool) (ttl : Int)
    (st : TickState) (code : String) (x : String) (hx : x ∈ st.log) :
    x ∈ (matchesStep env hasCM ttl st code).log := by
  unfold matchesStep
  split
  · rcases hm : env.syncCompetitionMatches code with e | u
    · cases hasCM with
      | false =>
        simp [advance, appendLog, List.mem_append]
        exact Or.inl hx
      | true =>
        simp [advance, appendLog, List.mem_append]
        exact Or.inl hx
    · cases hasCM with
      | false => simpa [advance] using hx
      | true => simpa [advance] using hx
  · exact hx

theorem standingsStep_db_frame (env : SyncEnv γ σ) (hasCM : Bool) (ttl : Int)
    (st : TickState) (code et2 k2 : String) (hne : ¬(et2 = "standings" ∧ k2 = code)) :
    queryMetadata (standingsStep env hasCM ttl st code).db et2 k2
      = queryMetadata st.db et2 k2 := by
  unfold standingsStep
  split
  · rcases hss : syncStandings env hasCM ttl st code with ⟨st2, err⟩
    have hdb : queryMetadata st2.db et2 k2 = queryMetadata st.db et2 k2 := by
      have h2 := syncStandings_db_frame env hasCM ttl st code et2 k2 hne
      rw [hss] at h2
      exact h2
    cases err with
    | none =>
      cases hasCM with
      | false => simpa [advance] using hdb
      | true =>
        simp only [advance, if_true]
        rw [queryMetadata_SetMetadata_other _ _ _ _ _ _ _ _ hne]
        exact hdb
    | some e =>
      cases hasCM with
      | false => simpa [advance, appendLog] using hdb
      | true =>
        simp only [advance, appendLog, if_true]
        rw [queryMetadata_SetMetadata_other _ _ _ _ _ _ _ _ hne]
        exact hdb
  · rfl

theorem standingsStep_log_mono (env : SyncEnv γ σ) (hasCM : Bool) (ttl : Int)
    (st : TickState) (code : String) (x : String) (hx : x ∈ st.log) :
    x ∈ (standingsStep env hasCM ttl st code).log := by
  unfold standingsStep
  split
  · rcases hss : syncStandings env hasCM ttl st code with ⟨st2, err⟩
    have hlog : st2.log = st.log := by
      have h2 := syncStandings_log env hasCM ttl st code
      rw [hss] at h2
      exact h2
    cases err with
    | none =>
      cases hasCM with
      | false => simpa [advance, hlog] using hx
      | true => simpa [advance, hlog] using hx
    | some e =>
      cases hasCM with
      | false =>
        simp [advance, appendLog, hlog, List.mem_append]
        exact Or.inl hx
      | true =>
        simp [advance, appendLog, hlog, List.mem_append]
        exact Or.inl hx
  · exact hx

theorem processCompetition_db_frame (env : SyncEnv γ σ) (hasCM : Bool) (ttl : Int)
    (st : TickState) (code et2 k2 : String) (hk : k2 ≠ code) :
    queryMetadata (processCompetition env hasCM ttl st code).db et2 k2
      = queryMetadata st.db et2 k2 := by
  unfold processCompetition
  rw [standingsStep_db_frame env hasCM ttl _ code et2 k2 (fun h => hk h.2),
    matchesStep_db_frame env hasCM ttl _ code et2 k2 (fun h => hk h.2),
    compStep_db_frame env hasCM ttl st code et2 k2 (fun h => hk h.2)]

theorem processCompetition_log_mono (env : SyncEnv γ σ) (hasCM : Bool) (ttl : Int)
    (st : TickState) (code : String) (x : String) (hx : x ∈ st.log) :
    x ∈ (processCompetition env hasCM ttl st code).log :=
  standingsStep_log_mono env hasCM ttl _ code x
    (matchesStep_log_mono env hasCM ttl _ code x
      (compStep_log_mono env hasCM ttl st code x hx))

theorem compStep_sets (env : SyncEnv γ σ) (ttl : Int) (st : TickState) (code : String)
    (comp : γ) (hfresh : queryMetadata st.db "competition" code = none)
    (hok : env.getCompetition code = .ok comp)
    (hsave : env.saveCompetition code comp = .ok ()) :
    queryMetadata (compStep env true ttl st code).db "competition" code
      = some { cachedAt := st.now, expiresAt := st.now + ttl,
               dataHash := env.hashComp comp } := by
  have hre : schedNeedsRefresh true st.db "competition" code st.now = true := by
    simp [schedNeedsRefresh, NeedsRefreshOk, NeedsRefresh, hfresh]
  unfold compStep
  rw [if_pos hre]
  have hsync : syncCompetition env true ttl st code
      = ({ st with
            db := SetMetadata st.db "competition" code (env.hashComp comp) st.now ttl },
          none) := by
    simp [syncCompetition, hok, hsave]
  rw [hsync]
  show queryMetadata (SetMetadata st.db "competition" code (env.hashComp comp) st.now ttl)
    "competition" code = _
  exact queryMetadata_SetMetadata_self st.db "competition" code (env.hashComp comp) st.now ttl

theorem compStep_db_of_fetch_error (env : SyncEnv γ σ) (hasCM : Bool) (ttl : Int)
    (st : TickState) (code e : String) (herr : env.getCompetition code = .error e) :
    (compStep env hasCM ttl st code).db = st.db := by
  unfold compStep
  split
  · have hsync : syncCompetition env hasCM ttl st code
        = (st, some ("failed to fetch competition: " ++ e)) := by
      simp [syncCompetition, herr]
    rw [hsync]
    rfl
  · rfl

theorem compStep_log_of_fetch_error (env : SyncEnv γ σ) (ttl : Int)
    (st : TickState) (code e : String) (herr : env.getCompetition code = .error e)
    (hfresh : queryMetadata st.db "competition" code = none) :
    ("Failed to sync competition " ++ code ++ ": "
        ++ ("failed to fetch competition: " ++ e))
      ∈ (compStep env true ttl st code).log := by
  have hre : schedNeedsRefresh true st.db "competition" code st.now = true := by
    simp [schedNeedsRefresh, NeedsRefreshOk, NeedsRefresh, hfresh]
  unfold compStep
  rw [if_pos hre]
  have hsync : syncCompetition env true ttl st code
      = (st, some ("failed to fetch competition: " ++ e)) := by
    simp [syncCompetition, herr]
  rw [hsync]
  simp [advance, appendLog]

theorem compStep_db_of_save_error (env : SyncEnv γ σ) (hasCM : Bool) (ttl : Int)
    (st : TickState) (code : String) (comp : γ) (e : String)
    (hok : env.getCompetition code = .ok comp)
    (herr : env.saveCompetition code comp = .error e) :
    (compStep env hasCM ttl st code).db = st.db := by
  unfold compStep
  split
  · have hsync : syncCompetition env hasCM ttl st code
        = (st, some ("failed to save competition: " ++ e)) := by
      simp [syncCompetition, hok, herr]
    rw [hsync]
    rfl
  · rfl

theorem compStep_log_of_save_error (env : SyncEnv γ σ) (ttl : Int)
    (st : TickState) (code : String) (comp : γ) (e : String)
    (hok : env.getCompetition code = .ok comp)
    (herr : env.saveCompetition code comp = .error e)
    (hfresh : queryMetadata st.db "competition" code = none) :
    ("Failed to sync competition " ++ code ++ ": "
        ++ ("failed to save competition: " ++ e))
      ∈ (compStep env true ttl st code).log := by
  have hre : schedNeedsRefresh true st.db "competition" code st.now = true := by
    simp [schedNeedsRefresh, NeedsRefreshOk, NeedsRefresh, hfresh]
  unfold compStep
  rw [if_pos hre]
  have hsync : syncCompetition env true ttl st code
      = (st, some ("failed to save competition: " ++ e)) := by
    simp [syncCompetition, hok, herr]
  rw [hsync]
  simp [advance, appendLog]

theorem processCompetition_sets (env : SyncEnv γ σ) (ttl : Int) (st : TickState)
    (code : String) (comp : γ)
    (hfresh : queryMetadata st.db "competition" code = none)
    (hok : env.getCompetition code = .ok comp)
    (hsave : env.saveCompetition code comp = .ok ()) :
    queryMetadata (processCompetition env true ttl st code).db "competition" code
      = some { cachedAt := st.now, expiresAt := st.now + ttl,
               dataHash := env.hashComp comp } := by
  unfold processCompetition
  rw [standingsStep_db_frame env true ttl _ code "competition" code
      (fun h => absurd h.1 (by decide)),
    matchesStep_db_frame env true ttl _ code "competition" code
      (fun h => absurd h.1 (by decide))]
  exact compStep_sets env ttl st code comp hfresh hok hsave

theorem processCompetition_fetch_error (env : SyncEnv γ σ) (hasCM : Bool) (ttl : Int)
    (st : TickState) (code e : String) (herr : env.getCompetition code = .error e) :
    queryMetadata (processCompetition env hasCM ttl st code).db "competition" code
      = queryMetadata st.db "competition" code := by
  unfold processCompetition
  rw [standingsStep_db_frame env hasCM ttl _ code "competition" code
      (fun h => absurd h.1 (by decide)),
    matchesStep_db_frame env hasCM ttl _ code "competition" code
      (fun h => absurd h.1 (by decide)),
    compStep_db_of_fetch_error env hasCM ttl st code e herr]

theorem processCompetition_log_of_fetch_error (env : SyncEnv γ σ) (ttl : Int)
    (st : TickState) (code e : String) (herr : env.getCompetition code = .error e)
    (hfresh : queryMetadata st.db "competition" code = none) :
    ("Failed to sync competition " ++ code ++ ": "
        ++ ("failed to fetch competition: " ++ e))
      ∈ (processCompetition env true ttl st code).log :=
  standingsStep_log_mono env true ttl _ code _
    (matchesStep_log_mono env true ttl _ code _
      (compStep_log_of_fetch_error env ttl st code e herr hfresh))

theorem processCompetition_save_error (env : SyncEnv γ σ) (hasCM : Bool) (ttl : Int)
    (st : TickState) (code : String) (comp : γ) (e : String)
    (hok : env.getCompetition code = .ok comp)
    (herr : env.saveCompetition code comp = .error e) :
    queryMetadata (processCompetition env hasCM ttl st code).db "competition" code
      = queryMetadata st.db "competition" code := by
  unfold processCompetition
  rw [standingsStep_db_frame env hasCM ttl _ code "competition" code
      (fun h => absurd h.1 (by decide)),
    matchesStep_db_frame env hasCM ttl _ code "competition" code
      (fun h => absurd h.1 (by decide)),
    compStep_db_of_save_error env hasCM ttl st code comp e hok herr]

theorem processCompetition_log_of_save_error (env : SyncEnv γ σ) (ttl : Int)
    (st : TickState) (code : String) (comp : γ) (e : String)
    (hok : env.getCompetition code = .ok comp)
    (herr : env.saveCompetition code comp = .error e)
    (hfresh : queryMetadata st.db "competition" code = none) :
    ("Failed to sync competition " ++ code ++ ": "
        ++ ("failed to save competition: " ++ e))
      ∈ (processCompetition env true ttl st code).log :=
  standingsStep_log_mono env true ttl _ code _
    (matchesStep_log_mono env true ttl _ code _
      (compStep_log_of_save_error env ttl st code comp e hok herr hfresh))

end SchedulerLemmas

/-! ## The claims -/

/-- C3, failing input: one tick over `["PL"]` in which `SyncCompetitionMatches`
and the standings fetch fail.  `runSync` still upserts the `matches` and
`standings` freshness metadata (marking them fresh, so the next tick will
not retry them), while the competition path correctly leaves its metadata
untouched after its failed fetch.  This contradicts the claim that metadata
is written only after fetch and persistence succeed. -/
theorem c3_failed_sync_still_marks_fresh :
    ((queryMetadata (runSyncTick failingEnv true (GetCacheTTL none)
        { db := [], log := [], now := 0 } ["PL"]).db "matches" "PL").isSome = true) ∧
    ((queryMetadata (runSyncTick failingEnv true (GetCacheTTL none)
        { db := [], log := [], now := 0 } ["PL"]).db "standings" "PL").isSome = true) ∧
    (queryMetadata (runSyncTick failingEnv true (GetCacheTTL none)
        { db := [], log := [], now := 0 } ["PL"]).db "competition" "PL" = none) ∧
    (("Failed to sync matches " ++ "PL" ++ ": " ++ "matches-fail")
      ∈ (runSyncTick failingEnv true (GetCacheTTL none)
        { db := [], log := [], now := 0 } ["PL"]).log) := by
  decide

/-- C7: in a tick over competitions `[a, b, c]` where `b` fails — either its
upstream fetch errors or the persistence of the fetched payload errors —
while `a` and `c` fetch and persist fine, the failure is logged and does not
abort the tick: `a` and `c` still get competition freshness metadata while
`b` does not. -/
theorem c7_partial_failure_isolation {γ σ : Type} (env : SyncEnv γ σ) (ttl now0 : Int)
    (a b c : String) (compA compC : γ)
    (hab : a ≠ b) (hac : a ≠ c) (hbc : b ≠ c)
    (hA1 : env.getCompetition a = .ok compA) (hA2 : env.saveCompetition a compA = .ok ())
    (hBfail : (∃ e, env.getCompetition b = Except.error e) ∨
      (∃ compB e, env.getCompetition b = Except.ok compB ∧
        env.saveCompetition b compB = Except.error e))
    (hC1 : env.getCompetition c = .ok compC) (hC2 : env.saveCompetition c compC = .ok ()) :
    ((queryMetadata (runSyncTick env true ttl { db := [], log := [], now := now0 }
        [a, b, c]).db "competition" a).isSome = true) ∧
    ((queryMetadata (runSyncTick env true ttl { db := [], log := [], now := now0 }
        [a, b, c]).db "competition" c).isSome = true) ∧
    (queryMetadata (runSyncTick env true ttl { db := [], log := [], now := now0 }
        [a, b, c]).db "competition" b = none) ∧
    (∃ emsg, ("Failed to sync competition " ++ b ++ ": " ++ emsg)
      ∈ (runSyncTick env true ttl { db := [], log := [], now := now0 } [a, b, c]).log) := by
  have hrun : runSyncTick env true ttl ({ db := [], log := [], now := now0 } : TickState)
      [a, b, c]
      = processCompetition env true ttl (processCompetition env true ttl
          (processCompetition env true ttl { db := [], log := [], now := now0 } a) b) c := by
    simp only [runSyncTick, List.foldl_cons, List.foldl_nil]
  rw [hrun]
  set st1 := processCompetition env true ttl
    ({ db := [], log := [], now := now0 } : TickState) a with hst1
  set st2 := processCompetition env true ttl st1 b with hst2
  set st3 := processCompetition env true ttl st2 c with hst3
  have hfreshA : queryMetadata (({ db := [], log := [], now := now0 } : TickState)).db
      "competition" a = none := rfl
  have hA : queryMetadata st1.db "competition" a
      = some { cachedAt := now0, expiresAt := now0 + ttl,
               dataHash := env.hashComp compA } := by
    rw [hst1]
    exact processCompetition_sets env ttl { db := [], log := [], now := now0 } a compA
      hfreshA hA1 hA2
  have hA3 : queryMetadata st3.db "competition" a
      = some { cachedAt := now0, expiresAt := now0 + ttl,
               dataHash := env.hashComp compA } := by
    rw [hst3, processCompetition_db_frame env true ttl st2 c "competition" a hac,
      hst2, processCompetition_db_frame env true ttl st1 b "competition" a hab]
    exact hA
  have hBfresh : queryMetadata st1.db "competition" b = none := by
    rw [hst1, processCompetition_db_frame env true ttl
      { db := [], log := [], now := now0 } a "competition" b (Ne.symm hab)]
    rfl
  have hB2 : queryMetadata st2.db "competition" b = none := by
    rcases hBfail with ⟨e, hBe⟩ | ⟨compB, e, hBok, hBsave⟩
    · rw [hst2, processCompetition_fetch_error env true ttl st1 b e hBe]
      exact hBfresh
    · rw [hst2, processCompetition_save_error env true ttl st1 b compB e hBok hBsave]
      exact hBfresh
  have hB3 : queryMetadata st3.db "competition" b = none := by
    rw [hst3, processCompetition_db_frame env true ttl st2 c "competition" b hbc]
    exact hB2
  have hCfresh : queryMetadata st2.db "competition" c = none := by
    rw [hst2, processCompetition_db_frame env true ttl st1 b "competition" c (Ne.symm hbc),
      hst1, processCompetition_db_frame env true ttl
        { db := [], log := [], now := now0 } a "competition" c (Ne.symm hac)]
    rfl
  have hC3 : queryMetadata st3.db "competition" c
      = some { cachedAt := st2.now, expiresAt := st2.now + ttl,
               dataHash := env.hashComp compC } := by
    rw [hst3]
    exact processCompetition_sets env ttl st2 c compC hCfresh hC1 hC2
  have hlog2 : ∃ emsg, ("Failed to sync competition " ++ b ++ ": " ++ emsg) ∈ st2.log := by
    rcases hBfail with ⟨e, hBe⟩ | ⟨compB, e, hBok, hBsave⟩
    · refine ⟨"failed to fetch competition: " ++ e, ?_⟩
      rw [hst2]
      exact processCompetition_log_of_fetch_error env ttl st1 b e hBe hBfresh
    · refine ⟨"failed to save competition: " ++ e, ?_⟩
      rw [hst2]
      exact processCompetition_log_of_save_error env ttl st1 b compB e hBok hBsave hBfresh
  have hlog3 : ∃ emsg, ("Failed to sync competition " ++ b ++ ": " ++ emsg) ∈ st3.log := by
    obtain ⟨emsg, hm⟩ := hlog2
    refine ⟨emsg, ?_⟩
    rw [hst3]
    exact processCompetition_log_mono env true ttl st2 c _ hm
  have hA4 : (queryMetadata st3.db "competition" a).isSome = true := by rw [hA3]; rfl
  have hC4 : (queryMetadata st3.db "competition" c).isSome = true := by rw [hC3]; rfl
  exact ⟨hA4, hC4, hB3, hlog3⟩

/-- Witness for C7: competitions A, B and C, where only B's fetch fails. -/
theorem c7_partial_failure_isolation_witness :
    (∃ emsg, ("Failed to sync competition " ++ "B" ++ ": " ++ emsg)
      ∈ (runSyncTick isolationEnv true 100 { db := [], log := [], now := 0 }
          ["A", "B", "C"]).log) ∧
    (queryMetadata (runSyncTick isolationEnv true 100 { db := [], log := [], now := 0 }
        ["A", "B", "C"]).db "competition" "A").isSome = true :=
  ⟨(c7_partial_failure_isolation isolationEnv 100 0 "A" "B" "C" () ()
      (by decide) (by decide) (by decide) rfl rfl (Or.inl ⟨"boom", rfl⟩) rfl rfl).2.2.2,
    (c7_partial_failure_isolation isolationEnv 100 0 "A" "B" "C" () ()
      (by decide) (by decide) (by decide) rfl rfl (Or.inl ⟨"boom", rfl⟩) rfl rfl).1⟩

/-- C4: under the idealized timing model, successive permitted calls through
one rate limiter are separated by at least `W/N = 6` seconds; hence at most
10 calls are permitted within any rolling window of one minute, and the
12th of 12 sequential calls is permitted no sooner than 66 seconds after the
first. -/
theorem c4_rate_limiter (arrivals : List Int) :
    List.Chain' (fun a b => a + requiredGap ≤ b) (callTimes none arrivals) ∧
    requiredGap = 6 * second ∧
    (∀ lo : Int,
      ((callTimes none arrivals).filter
        (fun x => lo ≤ x && x < lo + rateLimitDuration)).length ≤ 10) ∧
    (arrivals.length = 12 →
      ∀ (h0 : 0 < (callTimes none arrivals).length)
        (h11 : 0 + 11 < (callTimes none arrivals).length),
        (callTimes none arrivals).get ⟨0, h0⟩ + 66 * second
          ≤ (callTimes none arrivals).get ⟨0 + 11, h11⟩) := by
  refine ⟨callTimes_chain arrivals, by decide, ?_, ?_⟩
  · intro lo
    haveI : IsTrans Int (fun a b => a + requiredGap ≤ b) :=
      ⟨fun a b c hab hbc => by
        have hgap : (0 : Int) ≤ requiredGap := by decide
        omega⟩
    have hchainf : List.Chain' (fun a b => a + requiredGap ≤ b)
        ((callTimes none arrivals).filter
          (fun x => lo ≤ x && x < lo + rateLimitDuration)) :=
      (callTimes_chain arrivals).sublist (List.filter_sublist (callTimes none arrivals))
    apply chainGap_window requiredGap 10 lo _ hchainf
    intro x hx
    have hmem := List.mem_filter.mp hx
    have hp := hmem.2
    simp only [Bool.and_eq_true, decide_eq_true_eq] at hp
    refine ⟨hp.1, ?_⟩
    rw [show ((10 : Nat) : Int) * requiredGap = rateLimitDuration from by decide]
    exact hp.2
  · intro _h12 h0 h11
    have hstep := chainGap_get requiredGap _ (callTimes_chain arrivals) 0 11 h11 h0
    rw [show ((11 : Nat) : Int) * requiredGap = 66 * second from by decide] at hstep
    exact hstep

/-- Witness for C4: 12 immediate sequential calls starting from a fresh
limiter at instant 0; the 12th is permitted at 66 seconds. -/
theorem c4_rate_limiter_witness :
    (callTimes none (List.replicate 12 0)).get ⟨0, by decide⟩ + 66 * second
      ≤ (callTimes none (List.replicate 12 0)).get ⟨0 + 11, by decide⟩ :=
  (c4_rate_limiter (List.replicate 12 0)).2.2.2 (by decide) (by decide) (by decide)

/-- C5: the LRU cache of capacity C never holds more than C entries under any
operation sequence; inserting C+1 distinct keys leaves exactly C entries —
the C most recently inserted, so the first (least recently touched) is the
one evicted; and in the capacity-2 scenario Set(a), Set(b), Get(a), Set(c),
the Get refreshes the recency of a, so b is evicted and a and c remain. -/
theorem c5_lru_bound {α : Type} (C : Nat) (hC : 1 ≤ C) :
    (∀ ops : List (CacheOp α),
      (runOps (NewMemoryCache α (C : Int)) ops).items.length ≤ C) ∧
    (∀ entries : List (String × α × Int × Int),
      (entries.map (fun e => e.1)).Nodup → entries.length = C + 1 →
      (insertAll (NewMemoryCache α (C : Int)) entries).items.length = C ∧
      (insertAll (NewMemoryCache α (C : Int)) entries).items.map (fun p => p.1)
        = ((entries.map (fun e => e.1)).reverse).take C) ∧
    (runOps (NewMemoryCache Nat 2)
        [CacheOp.set "a" 1 100 0, CacheOp.set "b" 2 100 0,
         CacheOp.get "a" 0, CacheOp.set "c" 3 100 0]).items.map (fun p => p.1)
      = ["c", "a"] := by
  have hms : (NewMemoryCache α (C : Int)).maxSize = C := by
    unfold NewMemoryCache
    rw [if_neg (by omega)]
    show ((C : Int)).toNat = C
    omega
  refine ⟨?_, ?_, by decide⟩
  · intro ops
    have hrun := runOps_length_le (NewMemoryCache α (C : Int)) ops
      (by rw [hms]; exact hC) (by rw [hms]; show (0 : Nat) ≤ C; omega)
    rw [hms] at hrun
    exact hrun
  · intro entries hnd hlen
    have hkeys := insertAll_keys C hC entries (NewMemoryCache α (C : Int)) hms rfl hnd
    refine ⟨?_, hkeys⟩
    have hlm : ((insertAll (NewMemoryCache α (C : Int)) entries).items.map
        (fun p => p.1)).length = (insertAll (NewMemoryCache α (C : Int)) entries).items.length :=
      List.length_map _ _
    rw [← hlm, hkeys]
    simp only [List.length_take, List.length_reverse, List.length_map, hlen]
    omega

/-- Witness for C5: capacity 2 with three distinct inserts keeps exactly the
last two keys. -/
theorem c5_lru_bound_witness :
    (insertAll (NewMemoryCache Nat (2 : Int))
        [("x", 1, 100, 0), ("y", 2, 100, 0), ("z", 3, 100, 0)]).items.map (fun p => p.1)
      = ["z", "y"] :=
  (((c5_lru_bound (α := Nat) 2 (by decide)).2.1
    [("x", 1, 100, 0), ("y", 2, 100, 0), ("z", 3, 100, 0)] (by decide) (by decide)).2).trans
    (by decide)

/-- C1, counterexample: the TTL applied by `SetMetadata` is the cache
manager's single global `CacheTTL` — with the environment unset it is 30
days for every entity type, so a `match`-type entity does not get the
claimed 5-minute expiry.  The per-data-type TTL map of `cached_client.go`
does map `matches` to 5 minutes, but `SetMetadata` does not read it. -/
theorem c1_counterexample :
    cachedClientTTL "matches" = 5 * minute ∧
      (queryMetadata (SetMetadata [] "match" "PL" "" 0 (GetCacheTTL none)) "match" "PL").map
        (fun m => m.expiresAt) = some (30 * 24 * hour) ∧
      (30 * 24 * hour : Int) ≠ 0 + 5 * minute := by
  refine ⟨by decide, ?_, by decide⟩
  rw [queryMetadata_SetMetadata_self]
  rfl

/-- C1, amended: a successful `SetMetadata(entityType, entityKey, dataHash)`
stores `cachedAt = now` and `expiresAt = now + CacheTTL`, where `CacheTTL`
here is the cache manager's single global duration — `CACHE_TTL_DAYS * 24h`
when that variable is set to a positive integer, 30 days otherwise — the
same for every entity type, and the record is upserted under the composite
key.  The per-entity-type policy map exists in `cached_client.go` but
supplies only the volatile-tier TTLs of `CachedClient`; it is not read when
`SetMetadata` computes the freshness record's `expiresAt`. -/
theorem c1_setMetadata_global_ttl (env : Option Int) (db : MetaDB)
    (et ek dataHash : String) (now : Int) :
    queryMetadata (SetMetadata db et ek dataHash now (GetCacheTTL env)) et ek
      = some { cachedAt := now, expiresAt := now + GetCacheTTL env, dataHash := dataHash } :=
  queryMetadata_SetMetadata_self db et ek dataHash now (GetCacheTTL env)

/-- C2: when the metadata lookup succeeds, `NeedsRefresh` is true exactly when
`now` is strictly after `expiresAt` (`time.Now().After`), false at exact
equality, and true when no record exists. -/
theorem c2_needsRefresh_boundary (db : MetaDB) (et ek : String) (now : Int) :
    (∀ m, queryMetadata db et ek = some m →
      ((NeedsRefreshOk db et ek now = true ↔ m.expiresAt < now) ∧
        (now = m.expiresAt → NeedsRefreshOk db et ek now = false))) ∧
    (queryMetadata db et ek = none → NeedsRefreshOk db et ek now = true) := by
  constructor
  · intro m hm
    unfold NeedsRefreshOk NeedsRefresh
    rw [hm]
    constructor
    · simp [gt_iff_lt]
    · intro hEq
      rw [hEq]
      simp
  · intro hm
    unfold NeedsRefreshOk NeedsRefresh
    rw [hm]

/-- Witness for C2: a record expiring at 100 is still fresh at exactly 100,
and a missing record needs refresh. -/
theorem c2_needsRefresh_boundary_witness :
    NeedsRefreshOk [(("team", "X"), { cachedAt := 0, expiresAt := 100, dataHash := "h" })]
        "team" "X" 100 = false ∧
      NeedsRefreshOk [] "team" "X" 100 = true := by
  constructor
  · exact ((c2_needsRefresh_boundary
      [(("team", "X"), { cachedAt := 0, expiresAt := 100, dataHash := "h" })] "team" "X" 100).1
      { cachedAt := 0, expiresAt := 100, dataHash := "h" } (by decide)).2 (by decide)
  · exact (c2_needsRefresh_boundary [] "team" "X" 100).2 (by decide)

/-- C9: a failing metadata lookup (a database error, not mere absence) makes
`NeedsRefresh` return true, like a missing record. -/
theorem c9_needsRefresh_on_error (e : String) (now : Int) :
    NeedsRefresh (Except.error e) now = true :=
  rfl

/-- C6: after a successful `InvalidateEntity(entityType, entityKey)` the
freshness record is gone — so `NeedsRefresh` reports true at every instant —
and the volatile key `football:<entityType>:<entityKey>` is deleted from the
configured backend. -/
theorem c6_invalidate_forces_refresh {α : Type} (db : MetaDB)
    (redis : Option (MemoryCache α)) (et ek : String) (now : Int) :
    NeedsRefreshOk (InvalidateEntity db redis et ek).1 et ek now = true ∧
    ∀ c, redis = some c →
      (InvalidateEntity db redis et ek).2
          = some (c.Delete ("football:" ++ et ++ ":" ++ ek)) ∧
        (c.Delete ("football:" ++ et ++ ":" ++ ek)).items.find?
          (keyIs ("football:" ++ et ++ ":" ++ ek)) = none := by
  refine ⟨?_, ?_⟩
  · unfold NeedsRefreshOk NeedsRefresh InvalidateEntity
    rw [queryMetadata_invalidate]
  · intro c hc
    subst hc
    exact ⟨rfl, find?_filter_not _ _⟩

/-- Witness for C6: invalidating `("competition", "PL")` on a store where it
was fresh makes `NeedsRefresh` true and removes the volatile key. -/
theorem c6_invalidate_forces_refresh_witness :
    NeedsRefreshOk
        (InvalidateEntity [(("competition", "PL"), { cachedAt := 0, expiresAt := 100, dataHash := "h" })]
          (some ((NewMemoryCache Nat 2).Set "football:competition:PL" 7 50 0)) "competition" "PL").1
        "competition" "PL" 10 = true ∧
      (((NewMemoryCache Nat 2).Set "football:competition:PL" 7 50 0).Delete
          "football:competition:PL").items.find? (keyIs "football:competition:PL") = none := by
  refine ⟨(c6_invalidate_forces_refresh _ _ "competition" "PL" 10).1, ?_⟩
  exact (((c6_invalidate_forces_refresh
    [(("competition", "PL"), { cachedAt := 0, expiresAt := 100, dataHash := "h" })]
    (some ((NewMemoryCache Nat 2).Set "football:competition:PL" 7 50 0)) "competition" "PL" 10).2
    ((NewMemoryCache Nat 2).Set "football:competition:PL" 7 50 0) rfl).2)

/-- C8: a `Get` on an absent key returns absent with no error from both
volatile backends — the in-memory LRU store and the networked backend
(whose nil reply means the key does not exist). -/
theorem c8_cache_miss_not_failure {α : Type} (c : MemoryCache α) (key : String) (now : Int)
    (reply : RedisReply α) (habsent : c.items.find? (keyIs key) = none)
    (hmiss : reply = RedisReply.nilReply) :
    c.Get key now = (c, Except.ok none) ∧ RedisGet reply = Except.ok (none : Option α) := by
  constructor
  · unfold MemoryCache.Get
    rw [habsent]
  · rw [hmiss]
    rfl

/-- Witness for C8: a fresh cache misses on `"k"` without error, as does the
networked backend returning the nil reply. -/
theorem c8_cache_miss_not_failure_witness :
    (NewMemoryCache Nat 2).Get "k" 0 = (NewMemoryCache Nat 2, Except.ok none) ∧
      RedisGet (RedisReply.nilReply : RedisReply Nat) = Except.ok (none : Option Nat) :=
  c8_cache_miss_not_failure (NewMemoryCache Nat 2) "k" 0 RedisReply.nilReply (by decide) rfl

/-- C10: `CacheManager.Set` never returns an error: without a configured
backend it is a no-op, and a failing backend write is logged and swallowed —
so success does not imply the value reached the volatile tier. -/
theorem c10_cacheManagerSet_never_errors {σ : Type} (redis : Option σ)
    (redisSet : σ → String → List Nat → Int → Except String σ)
    (key : String) (data : List Nat) (ttl : Int) :
    (cacheManagerSet redis redisSet key data ttl).2.1 = none ∧
    cacheManagerSet (none : Option σ) redisSet key data ttl = (none, none, none) ∧
    (∀ s e, redis = some s → redisSet s key data ttl = .error e →
      cacheManagerSet redis redisSet key data ttl
        = (some s, none, some ("Failed to set Redis cache " ++ key ++ ": " ++ e))) := by
  refine ⟨?_, rfl, ?_⟩
  · cases redis with
    | none => rfl
    | some s =>
      cases hr : redisSet s key data ttl with
      | ok s2 => simp [cacheManagerSet, hr]
      | error e => simp [cacheManagerSet, hr]
  · intro s e hs he
    subst hs
    simp [cacheManagerSet, he]

/-- Witness for C10: a backend whose write always fails still yields a nil
error from `CacheManager.Set`, with the failure logged. -/
theorem c10_cacheManagerSet_never_errors_witness :
    cacheManagerSet (some (0 : Nat)) (fun _ _ _ _ => Except.error "down") "k" [1] 5
      = (some 0, none, some "Failed to set Redis cache k: down") :=
  (c10_cacheManagerSet_never_errors (some (0 : Nat)) (fun _ _ _ _ => Except.error "down")
    "k" [1] 5).2.2 0 "down" rfl rfl

end RelaxOVision
